import Mathlib

/-!
Verification development for the regex engine of `src/regex_impl.cc`
(namespace Kakoune): the recursive-descent parser, the bytecode compiler
and the threaded simulation VM.  The embedding is executable: parser and
VM are translated function by function from the C++ source; the matcher
closures of the source are defunctionalised into a `Matcher` datatype
carrying exactly the captured state of each closure, interpreted by
`runMatcher`.  Machine details that matter are kept: the bytecode is a
byte list, offsets are 4-byte little-endian words, literals are UTF-8
encoded, input positions are byte offsets.  C++ recursion and the VM
loops are modelled with an explicit fuel argument (`none` = the source
loops without terminating); a dereference of the input past-the-end
iterator (which the C++ performs in the `Matcher` case of `step`) is
made explicit as an `oob` outcome.
-/

namespace Kakoune

/-- Codepoints are unsigned 32-bit scalars in the source; `Nat` here. -/
abbrev Codepoint := Nat

/-! ### UTF-8 codec

Modelled from the spec: the engine "consumes a codepoint decoder over a
byte range" (`utf8.hh`, outside `src/`); this is the standard UTF-8
encoding the spec's §6 refers to ("variable-length UTF-8"). -/

/-- Standard UTF-8 encoding of one codepoint (source: `utf8::dump`). -/
def utf8Dump (cp : Codepoint) : List Nat :=
  if cp < 0x80 then [cp]
  else if cp < 0x800 then
    [0xC0 ||| (cp >>> 6), 0x80 ||| (cp &&& 0x3F)]
  else if cp < 0x10000 then
    [0xE0 ||| (cp >>> 12), 0x80 ||| ((cp >>> 6) &&& 0x3F), 0x80 ||| (cp &&& 0x3F)]
  else
    [0xF0 ||| (cp >>> 18), 0x80 ||| ((cp >>> 12) &&& 0x3F),
     0x80 ||| ((cp >>> 6) &&& 0x3F), 0x80 ||| (cp &&& 0x3F)]

/-- Length in bytes of the UTF-8 sequence whose first byte is `b`. -/
def utf8SeqLen (b : Nat) : Nat :=
  if b < 0x80 then 1
  else if b < 0xE0 then 2
  else if b < 0xF0 then 3
  else 4

/-- Standard UTF-8 decode at byte position `pos` of `bytes`; returns the
codepoint and the position one sequence further
(source: `utf8::read_codepoint`, which also advances the iterator). -/
def utf8Read (bytes : List Nat) (pos : Nat) : Codepoint × Nat :=
  let b := bytes.getD pos 0
  if b < 0x80 then (b, pos + 1)
  else if b < 0xE0 then
    ((b &&& 0x1F) <<< 6 ||| (bytes.getD (pos+1) 0 &&& 0x3F), pos + 2)
  else if b < 0xF0 then
    ((b &&& 0x0F) <<< 12 ||| (bytes.getD (pos+1) 0 &&& 0x3F) <<< 6 |||
     (bytes.getD (pos+2) 0 &&& 0x3F), pos + 3)
  else
    ((b &&& 0x07) <<< 18 ||| (bytes.getD (pos+1) 0 &&& 0x3F) <<< 12 |||
     (bytes.getD (pos+2) 0 &&& 0x3F) <<< 6 ||| (bytes.getD (pos+3) 0 &&& 0x3F), pos + 4)

/-- Byte position of the UTF-8 sequence preceding `pos` (source:
`utf8::iterator::operator--`: skip continuation bytes backwards). -/
def utf8PrevPos (bytes : List Nat) (pos : Nat) : Nat :=
  match pos with
  | 0 => 0
  | p + 1 =>
    if bytes.getD p 0 &&& 0xC0 == 0x80 then utf8PrevPos bytes p else p

/-- UTF-8 bytes of a Lean string, used to feed the VM the same byte
range the C++ `exec` receives. -/
def strBytes (s : String) : List Nat :=
  (s.toList.map Char.toNat).flatMap utf8Dump

/-- Codepoint list of a Lean string: what the parser's UTF-8 iterator
yields over the pattern. -/
def strCps (s : String) : List Codepoint :=
  s.toList.map Char.toNat

/-! ### Character property oracle

Modelled from the spec: "a Unicode character-property oracle (is-word,
is-digit, is-alpha, is-space)" consulted through `wctype`/`iswctype`
(libc, outside `src/`), here with the portable C-locale meaning of the
three ctype names the source uses. -/

/-- C-locale `iswctype` for the three ctype names used by the source:
"digit", "alnum", "space". -/
def iswctypeName (cp : Codepoint) (ctype : String) : Bool :=
  if ctype = "digit" then 48 ≤ cp && cp ≤ 57
  else if ctype = "alnum" then
    (48 ≤ cp && cp ≤ 57) || (65 ≤ cp && cp ≤ 90) || (97 ≤ cp && cp ≤ 122)
  else if ctype = "space" then
    cp == 32 || (9 ≤ cp && cp ≤ 13)
  else false

/-- Word-character predicate (source: `is_word` in `unicode.hh`:
alphanumeric or underscore). -/
def is_word (cp : Codepoint) : Bool :=
  cp == 95 || iswctypeName cp "alnum"

/-! ### Parser data model (source: `namespace RegexCompiler`) -/

/-- Source: `RegexCompiler::Quantifier::Type`. -/
inductive QuantType where
  | One | Optional | RepeatZeroOrMore | RepeatOneOrMore | RepeatMinMax
deriving DecidableEq, Repr

/-- Source: `RegexCompiler::Quantifier` (`int min, max` with `-1` as
the "unspecified / unbounded" sentinel). -/
structure Quantifier where
  type : QuantType
  min : Int := -1
  max : Int := -1
deriving DecidableEq, Repr

/-- Source: `Quantifier::allows_none`. -/
def Quantifier.allows_none (q : Quantifier) : Bool :=
  q.type == QuantType.Optional || q.type == QuantType.RepeatZeroOrMore ||
  (q.type == QuantType.RepeatMinMax && q.min ≤ 0)

/-- Source: `Quantifier::allows_infinite_repeat`. -/
def Quantifier.allows_infinite_repeat (q : Quantifier) : Bool :=
  q.type == QuantType.RepeatZeroOrMore || q.type == QuantType.RepeatOneOrMore ||
  (q.type == QuantType.RepeatMinMax && q.max == -1)

/-- Source: `RegexCompiler::Op` (AST operator). -/
inductive AstOp where
  | Literal | AnyChar | Matcher | Sequence | Alternation
  | LineStart | LineEnd | WordBoundary | NotWordBoundary
  | SubjectBegin | SubjectEnd
deriving DecidableEq, Repr

/-- Source: `RegexCompiler::AstNode`.  `value` is a `Codepoint`
(`char32_t`) in the source, with `(Codepoint)-1` as sentinel; it is an
`Int` here so the sentinel keeps its source spelling `-1`. -/
inductive AstNode where
  | mk (op : AstOp) (value : Int) (quant : Quantifier) (children : List AstNode)

def AstNode.op : AstNode → AstOp
  | .mk o _ _ _ => o

def AstNode.value : AstNode → Int
  | .mk _ v _ _ => v

def AstNode.quant : AstNode → Quantifier
  | .mk _ _ q _ => q

def AstNode.children : AstNode → List AstNode
  | .mk _ _ _ c => c

/-- Source: `CharRange`. -/
structure CharRange where
  min : Codepoint
  max : Codepoint
deriving DecidableEq, Repr

/-- Defunctionalised matcher closure.  The source stores
`std::function<bool(Codepoint)>` values; the two closure shapes it ever
creates (in `atom_escape` and in `character_class`) are represented by
their captured state and interpreted by `runMatcher`. -/
inductive Matcher where
  /-- Closure built in `atom_escape`: captures the `wctype` of the class
  escape and its additional characters (the `neg` field of the table is
  not captured there, exactly as in the source). -/
  | escape (ctype : String) (additional_chars : List Codepoint)
  /-- Closure built in `character_class`: captures the ranges, the
  (ctype, sign) pairs and the negation flag. -/
  | charClass (ranges : List CharRange) (ctypes : List (String × Bool)) (negative : Bool)
deriving DecidableEq, Repr

/-- Body of the matcher closures of the source. -/
def runMatcher : Matcher → Codepoint → Bool
  | .escape ctype chars, cp =>
    iswctypeName cp ctype || chars.contains cp
  | .charClass ranges ctypes negative, cp =>
    let found := ranges.any (fun r => r.min ≤ cp && cp ≤ r.max) ||
                 ctypes.any (fun c => iswctypeName cp c.1 == c.2)
    if negative then !found else found

/-- Source: `RegexCompiler::ParsedRegex`. -/
structure ParsedRegex where
  ast : AstNode
  capture_count : Nat
  matchers : List Matcher

/-- The default quantifier `{Quantifier::One}` of the source. -/
def qOne : Quantifier := { type := QuantType.One }

/-- Source: `make_ast_node` with its default arguments (`value = -1`,
quantifier `One`); both arguments are explicit here. -/
def make_ast_node (op : AstOp) (value : Int) (quant : Quantifier) : AstNode :=
  .mk op value quant []

/-! ### Parser (source: `struct RegexParser`)

Parsing state: the remaining codepoints of the pattern (`m_pos` to the
end), the running capture count and matcher table (`m_parsed_regex`).
Reading `*m_pos` when `m_pos` is at the end of the pattern — which the
source does in `atom_escape` and `quantifier` — yields the NUL byte
that terminates the C++ string buffer, so the model reads codepoint `0`
there.  C++ recursion is fuelled; errors are `Except.error` with the
source's message (the `<<<HERE>>>` position formatting is omitted). -/

/-- Parser state: remaining pattern codepoints plus the mutable parts of
`m_parsed_regex` (capture count, matcher table). -/
structure PState where
  rem : List Codepoint
  capture_count : Nat
  matchers : List Matcher
deriving Repr

/-- Table at the bottom of `RegexParser`: `character_class_escapes`.
The last row repeats `'s'` (115) instead of `'S'`, exactly as in the
source. -/
def character_class_escapes : List (Codepoint × String × List Codepoint × Bool) :=
  [ (100, "digit", [], false),   -- 'd'
    (68,  "digit", [], true),    -- 'D'
    (119, "alnum", [95], false), -- 'w', additional '_'
    (87,  "alnum", [95], true),  -- 'W', additional '_'
    (115, "space", [], false),   -- 's'
    (115, "space", [], true) ]   -- 's' again (source has 's' here, not 'S')

/-- Codepoints of `"^$.*+?()[]{}|"` (the syntax-character set tested in
`atom`). -/
def atomSyntaxChars : List Codepoint :=
  [94, 36, 46, 42, 43, 63, 40, 41, 91, 93, 123, 125, 124]

/-- Codepoints of `"^$\\.*+?()[]{}|"` (the syntax-character set tested
in `atom_escape`; note it additionally holds the backslash). -/
def escapeSyntaxChars : List Codepoint :=
  [94, 36, 92, 46, 42, 43, 63, 40, 41, 91, 93, 123, 125, 124]

/-- Control escape table of `atom_escape`: `\f \n \r \t \v`. -/
def control_escapes : List (Codepoint × Codepoint) :=
  [(102, 12), (110, 10), (114, 13), (116, 9), (118, 11)]

/-- Source: `RegexParser::assertion`.  Peeks without consuming on
failure; returns the assertion node and the rest on success. -/
def assertion (st : PState) : Option (AstNode × PState) :=
  match st.rem with
  | [] => none
  | c :: rest =>
    if c = 94 then some (make_ast_node .LineStart (-1) qOne, { st with rem := rest })       -- '^'
    else if c = 36 then some (make_ast_node .LineEnd (-1) qOne, { st with rem := rest })    -- '$'
    else if c = 92 then                                                           -- '\'
      match rest with
      | [] => none  -- m_pos+1 == m_regex.end()
      | c2 :: rest2 =>
        if c2 = 98 then some (make_ast_node .WordBoundary (-1) qOne, { st with rem := rest2 })       -- 'b'
        else if c2 = 66 then some (make_ast_node .NotWordBoundary (-1) qOne, { st with rem := rest2 }) -- 'B'
        else if c2 = 96 then some (make_ast_node .SubjectBegin (-1) qOne, { st with rem := rest2 })  -- '`'
        else if c2 = 39 then some (make_ast_node .SubjectEnd (-1) qOne, { st with rem := rest2 })    -- '\''
        else none
    else none

/-- Source: `RegexParser::atom_escape` (called with the backslash
already consumed; consumes the escaped codepoint, reading NUL at the
end of the pattern). -/
def atom_escape (st : PState) : Except String (AstNode × PState) :=
  let cp := st.rem.headD 0
  let st := { st with rem := st.rem.tail }
  -- CharacterClassEscape
  match character_class_escapes.find? (fun e => e.1 == cp) with
  | some e =>
    let matcher_id := st.matchers.length
    .ok (make_ast_node .Matcher (Int.ofNat matcher_id) qOne,
         { st with matchers := st.matchers ++ [.escape e.2.1 e.2.2.1] })
  | none =>
  -- CharacterEscape (control escapes)
  match control_escapes.find? (fun e => e.1 == cp) with
  | some e => .ok (make_ast_node .Literal (Int.ofNat e.2) qOne, st)
  | none =>
  if escapeSyntaxChars.contains cp then  -- SyntaxCharacter
    .ok (make_ast_node .Literal (Int.ofNat cp) qOne, st)
  else
    .error "unknown atom escape"

/-- One iteration step of the `character_class` item loop, split out so
the loop below stays close to the source text: accumulated ranges and
ctypes are threaded through. -/
def character_class_loop (fuel : Nat) (st : PState)
    (ranges : List CharRange) (ctypes : List (String × Bool)) :
    Except String (List CharRange × List (String × Bool) × PState) :=
  match fuel with
  | 0 => .error "FUEL"
  | fuel + 1 =>
    match st.rem with
    | [] => .ok (ranges, ctypes, st)                     -- loop exit: m_pos == end
    | c :: rest =>
      if c = 93 then .ok (ranges, ctypes, st)            -- loop exit: *m_pos == ']'
      else
        let st1 : PState := { st with rem := rest }      -- cp = *m_pos++
        if c = 45 then                                   -- '-'
          character_class_loop fuel st1 (ranges ++ [⟨45, 45⟩]) ctypes
        else if st1.rem.isEmpty then
          .ok (ranges, ctypes, st1)                      -- if (at_end()) break
        else
          let escHit :=
            if c = 92 then                               -- '\'
              character_class_escapes.find? (fun e => e.1 == st1.rem.headD 0)
            else none
          match escHit with
          | some e =>
            character_class_loop fuel { st1 with rem := st1.rem.tail }
              (ranges ++ e.2.2.1.map (fun ch => ⟨ch, ch⟩))
              (ctypes ++ [(e.2.1, !e.2.2.2)])
          | none =>
            if st1.rem.headD 0 = 45 then                 -- *m_pos == '-'
              match st1.rem.tail with
              | [] => .ok (ranges, ctypes, { st1 with rem := [] })  -- ++m_pos == end: break
              | m :: rest2 =>
                if c > m then .error "invalid range specified"
                else character_class_loop fuel { st1 with rem := rest2 }
                  (ranges ++ [⟨c, m⟩]) ctypes
            else
              character_class_loop fuel st1 (ranges ++ [⟨c, c⟩]) ctypes

/-- Source: `RegexParser::character_class` (called with `[` already
consumed). -/
def character_class (fuel : Nat) (st : PState) : Except String (AstNode × PState) :=
  let negative := !st.rem.isEmpty && st.rem.headD 0 == 94   -- '^'
  let st := if negative then { st with rem := st.rem.tail } else st
  match character_class_loop fuel st [] [] with
  | .error e => .error e
  | .ok (ranges, ctypes, st1) =>
    if st1.rem.isEmpty then .error "unclosed character class"
    else
      let st2 : PState := { st1 with rem := st1.rem.tail }  -- consume ']'
      let matcher_id := st2.matchers.length
      .ok (make_ast_node .Matcher (Int.ofNat matcher_id) qOne,
           { st2 with matchers := st2.matchers ++ [.charClass ranges ctypes negative] })

/-- Source: the local `read_int` lambda of `RegexParser::quantifier`:
reads a decimal, `-1` when the first character is no digit, the
accumulated value when the input ends. -/
def read_int (l : List Codepoint) (acc : Int) (atBegin : Bool) : Int × List Codepoint :=
  match l with
  | [] => (acc, [])
  | c :: rest =>
    if c < 48 || c > 57 then (if atBegin then (-1, l) else (acc, l))
    else read_int rest (acc * 10 + (Int.ofNat c - 48)) false

/-- Source: `RegexParser::quantifier`.  The `{...}` arm reads `*it` past
the end of the pattern as NUL, as the C++ does on the terminated
buffer. -/
def quantifier (st : PState) : Except String (Quantifier × PState) :=
  match st.rem with
  | [] => .ok ({ type := QuantType.One }, st)
  | c :: rest =>
    if c = 42 then .ok ({ type := QuantType.RepeatZeroOrMore }, { st with rem := rest })      -- '*'
    else if c = 43 then .ok ({ type := QuantType.RepeatOneOrMore }, { st with rem := rest })  -- '+'
    else if c = 63 then .ok ({ type := QuantType.Optional }, { st with rem := rest })         -- '?'
    else if c = 123 then                                                                      -- '{'
      let (min, l1) := read_int rest 0 true
      let (max, l2) :=
        if l1.headD 0 = 44 then read_int l1.tail 0 true else (min, l1)                        -- ','
      let nx := l2.headD 0
      if nx ≠ 125 then .error "expected closing bracket"                                      -- '}'
      else .ok ({ type := QuantType.RepeatMinMax, min := min, max := max },
                { st with rem := l2.tail })
    else .ok ({ type := QuantType.One }, st)

mutual

/-- Source: `RegexParser::disjunction`. -/
def disjunction (fuel : Nat) (capture : Int) (st : PState) :
    Except String (AstNode × PState) :=
  match fuel with
  | 0 => .error "FUEL"
  | fuel + 1 =>
    match alternative fuel st with
    | .error e => .error e
    | .ok (node, st1) =>
      if st1.rem.headD 0 ≠ 124 || st1.rem.isEmpty then                 -- at_end() or *m_pos != '|'
        .ok (.mk node.op capture node.quant node.children, st1)        -- node->value = capture
      else
        match disjunction fuel (-1) { st1 with rem := st1.rem.tail } with
        | .error e => .error e
        | .ok (rhs, st2) =>
          .ok (.mk .Alternation capture { type := QuantType.One } [node, rhs], st2)

/-- Source: `RegexParser::alternative` (the `while (auto node = term())`
loop followed by the empty check). -/
def alternative (fuel : Nat) (st : PState) : Except String (AstNode × PState) :=
  match fuel with
  | 0 => .error "FUEL"
  | fuel + 1 =>
    match terms fuel st [] with
    | .error e => .error e
    | .ok (children, st1) =>
      if children.isEmpty then .error "empty alternative"
      else .ok (.mk .Sequence (-1) { type := QuantType.One } children, st1)

/-- The term-collecting loop inside `alternative`. -/
def terms (fuel : Nat) (st : PState) (acc : List AstNode) :
    Except String (List AstNode × PState) :=
  match fuel with
  | 0 => .error "FUEL"
  | fuel + 1 =>
    match term fuel st with
    | .error e => .error e
    | .ok (none, st1) => .ok (acc, st1)
    | .ok (some node, st1) => terms fuel st1 (acc ++ [node])

/-- Source: `RegexParser::term`. -/
def term (fuel : Nat) (st : PState) : Except String (Option AstNode × PState) :=
  match fuel with
  | 0 => .error "FUEL"
  | fuel + 1 =>
    match assertion st with
    | some (node, st1) => .ok (some node, st1)
    | none =>
      match atom fuel st with
      | .error e => .error e
      | .ok (none, st1) => .ok (none, st1)
      | .ok (some node, st1) =>
        match quantifier st1 with
        | .error e => .error e
        | .ok (q, st2) =>
          .ok (some (.mk node.op node.value q node.children), st2)

/-- Source: `RegexParser::atom`. -/
def atom (fuel : Nat) (st : PState) : Except String (Option AstNode × PState) :=
  match fuel with
  | 0 => .error "FUEL"
  | fuel + 1 =>
    match st.rem with
    | [] => .ok (none, st)
    | cp :: rest =>
      if cp = 46 then .ok (some (make_ast_node .AnyChar (-1) qOne), { st with rem := rest })  -- '.'
      else if cp = 40 then                                                          -- '('
        let cap := st.capture_count
        match disjunction fuel (Int.ofNat cap)
            { st with rem := rest, capture_count := cap + 1 } with
        | .error e => .error e
        | .ok (content, st1) =>
          if st1.rem.headD 0 ≠ 41 || st1.rem.isEmpty then .error "unclosed parenthesis"
          else .ok (some content, { st1 with rem := st1.rem.tail })
      else if cp = 92 then                                                          -- '\'
        match atom_escape { st with rem := rest } with
        | .error e => .error e
        | .ok (node, st1) => .ok (some node, st1)
      else if cp = 91 then                                                          -- '['
        match character_class fuel { st with rem := rest } with
        | .error e => .error e
        | .ok (node, st1) => .ok (some node, st1)
      else if atomSyntaxChars.contains cp then .ok (none, st)
      else .ok (some (make_ast_node .Literal (Int.ofNat cp) qOne), { st with rem := rest })

end

/-- Source: the `RegexParser` constructor: `capture_count = 1`, then
`ast = disjunction(0)`.  Note it does not require the whole pattern to
be consumed.  The fuel is ample for every terminating parse. -/
def regexParse (s : String) : Except String ParsedRegex :=
  let cps := strCps s
  let fuel := 8 * cps.length + 16
  match disjunction fuel 0 { rem := cps, capture_count := 1, matchers := [] } with
  | .error e => .error e
  | .ok (ast, st) => .ok { ast := ast, capture_count := st.capture_count, matchers := st.matchers }

end Kakoune

namespace Kakoune

/-! ### Compiler (source: the free functions of `RegexCompiler`) -/

/-- Source: `struct CompiledRegex` with its `Op` enum; the enum byte
values, in declaration order. -/
def opMatch : Nat := 0
def opLiteral : Nat := 1
def opAnyChar : Nat := 2
def opMatcher : Nat := 3
def opJump : Nat := 4
def opSplit_PrioritizeParent : Nat := 5
def opSplit_PrioritizeChild : Nat := 6
def opSave : Nat := 7
def opLineStart : Nat := 8
def opLineEnd : Nat := 9
def opWordBoundary : Nat := 10
def opNotWordBoundary : Nat := 11
def opSubjectBegin : Nat := 12
def opSubjectEnd : Nat := 13

/-- Source: `struct CompiledRegex` (bytecode bytes, matcher table,
save-slot count).  `Offset` is `unsigned`, stored as 4 little-endian
bytes in the bytecode. -/
structure CompiledRegex where
  bytecode : List Nat
  matchers : List Matcher
  save_count : Nat
deriving DecidableEq, Repr

/-- Width of `CompiledRegex::Offset` (`sizeof(unsigned)`). -/
def offsetSize : Nat := 4

/-- Little-endian bytes of an offset word. -/
def offsetBytes (v : Nat) : List Nat :=
  [v % 256, v / 256 % 256, v / 65536 % 256, v / 16777216 % 256]

/-- Read the little-endian offset stored at `pos` (source: reading
through `get_offset`). -/
def readOffset (code : List Nat) (pos : Nat) : Nat :=
  code.getD pos 0 + code.getD (pos+1) 0 * 256 +
  code.getD (pos+2) 0 * 65536 + code.getD (pos+3) 0 * 16777216

/-- Append one byte to the bytecode (source: `bytecode.push_back`). -/
def pushByte (p : CompiledRegex) (b : Nat) : CompiledRegex :=
  { p with bytecode := p.bytecode ++ [b % 256] }

/-- Source: `alloc_offset`: grow the bytecode by one zeroed offset word,
returning its position. -/
def alloc_offset (p : CompiledRegex) : CompiledRegex × Nat :=
  ({ p with bytecode := p.bytecode ++ [0, 0, 0, 0] }, p.bytecode.length)

/-- Source: assignment through `get_offset`: overwrite the offset word
at `pos` with `v`. -/
def set_offset (p : CompiledRegex) (pos v : Nat) : CompiledRegex :=
  { p with bytecode :=
      (((p.bytecode.set pos (v % 256)).set (pos+1) (v / 256 % 256)).set
        (pos+2) (v / 65536 % 256)).set (pos+3) (v / 16777216 % 256) }

/-- Source: `push_codepoint` (UTF-8 dump into the bytecode). -/
def push_codepoint (p : CompiledRegex) (cp : Codepoint) : CompiledRegex :=
  { p with bytecode := p.bytecode ++ utf8Dump cp }

mutual

/-- Source: `RegexCompiler::compile_node`: quantifier wrapping around
`compile_node_inner`; returns the updated program and the node's start
position.  The C++ recursion terminates on every input (its depth and
repetition counts are bounded by the pattern); it is modelled with a
nested-call budget `fuel`, decremented on every call, whose exhaustion
returns the program unchanged — `compile` below passes an ample budget,
never reached by the patterns considered in this development. -/
def compile_node (fuel : Nat) (p : CompiledRegex) (node : AstNode) : CompiledRegex × Nat :=
  match fuel with
  | 0 => (p, p.bytecode.length)
  | fuel + 1 =>
    let pos := p.bytecode.length
    let (p, goto_end_offsets) :=
      if node.quant.allows_none then
        let p := pushByte p opSplit_PrioritizeParent
        let (p, off) := alloc_offset p
        (p, [off])
      else (p, ([] : List Nat))
    let (p, inner_pos) := compile_node_inner fuel p node
    let (p, inner_pos) := compile_min_copies fuel p node inner_pos (node.quant.min - 1).toNat
    let (p, goto_end_offsets) :=
      if node.quant.allows_infinite_repeat then
        let p := pushByte p opSplit_PrioritizeChild
        let (p, off) := alloc_offset p
        (set_offset p off inner_pos, goto_end_offsets)
      else
        compile_opt_copies fuel p node (node.quant.max - max 1 node.quant.min).toNat goto_end_offsets
    let p := goto_end_offsets.foldl (fun p off => set_offset p off p.bytecode.length) p
    (p, pos)

/-- The `for (int i = 1; i < min; ++i)` loop of `compile_node`:
`k` further copies of the inner body, tracking the last `inner_pos`. -/
def compile_min_copies (fuel : Nat) (p : CompiledRegex) (node : AstNode) (last : Nat) (k : Nat) :
    CompiledRegex × Nat :=
  match fuel with
  | 0 => (p, last)
  | fuel + 1 =>
    match k with
    | 0 => (p, last)
    | k + 1 =>
      let (p, pos) := compile_node_inner fuel p node
      compile_min_copies fuel p node pos k

/-- The `else for (int i = max(1, min); i < max; ++i)` loop of
`compile_node`: `k` optional copies, accumulating their skip offsets. -/
def compile_opt_copies (fuel : Nat) (p : CompiledRegex) (node : AstNode) (k : Nat)
    (goto_end_offsets : List Nat) : CompiledRegex × List Nat :=
  match fuel with
  | 0 => (p, goto_end_offsets)
  | fuel + 1 =>
    match k with
    | 0 => (p, goto_end_offsets)
    | k + 1 =>
      let p := pushByte p opSplit_PrioritizeParent
      let (p, off) := alloc_offset p
      let (p, _) := compile_node_inner fuel p node
      compile_opt_copies fuel p node k (goto_end_offsets ++ [off])

/-- Source: `RegexCompiler::compile_node_inner`.  The `Op::Matcher` case
falls through into `Op::Sequence` (no `break` in the source), hence the
child compilation in both cases. -/
def compile_node_inner (fuel : Nat) (p : CompiledRegex) (node : AstNode) : CompiledRegex × Nat :=
  match fuel with
  | 0 => (p, p.bytecode.length)
  | fuel + 1 =>
    match node with
    | .mk op value _ children =>
      let start_pos := p.bytecode.length
      let capture : Int :=
        if op = .Alternation || op = .Sequence then value else -1
      let p :=
        if capture ≠ -1 then
          pushByte (pushByte p opSave) (2 * capture).toNat
        else p
      let (p, goto_inner_end_offsets) :=
        match op with
        | .Literal => (push_codepoint (pushByte p opLiteral) value.toNat, ([] : List Nat))
        | .AnyChar => (pushByte p opAnyChar, [])
        | .Matcher =>
          let p := pushByte (pushByte p opMatcher) value.toNat
          (compile_children fuel p children, [])   -- fallthrough into Sequence
        | .Sequence => (compile_children fuel p children, [])
        | .Alternation =>
          match children with
          | c0 :: c1 :: _ =>
            let p := pushByte p opSplit_PrioritizeParent
            let (p, off) := alloc_offset p
            let (p, _) := compile_node fuel p c0
            let p := pushByte p opJump
            let (p, endOff) := alloc_offset p
            let (p, right_pos) := compile_node fuel p c1
            (set_offset p off right_pos, [endOff])
          | _ => (p, [])   -- kak_assert(children.size() == 2): unreachable from the parser
        | .LineStart => (pushByte p opLineStart, [])
        | .LineEnd => (pushByte p opLineEnd, [])
        | .WordBoundary => (pushByte p opWordBoundary, [])
        | .NotWordBoundary => (pushByte p opNotWordBoundary, [])
        | .SubjectBegin => (pushByte p opSubjectBegin, [])
        | .SubjectEnd => (pushByte p opSubjectEnd, [])
      let p := goto_inner_end_offsets.foldl (fun p off => set_offset p off p.bytecode.length) p
      let p :=
        if capture ≠ -1 then
          pushByte (pushByte p opSave) (2 * capture + 1).toNat
        else p
      (p, start_pos)

/-- The child loop shared by the `Sequence` (and fallen-through
`Matcher`) case of `compile_node_inner`. -/
def compile_children (fuel : Nat) (p : CompiledRegex) (l : List AstNode) : CompiledRegex :=
  match fuel with
  | 0 => p
  | fuel + 1 =>
    match l with
    | [] => p
    | c :: cs => compile_children fuel (compile_node fuel p c).1 cs

end

/-- Nested-call budget passed by `compile`: ample for every pattern this
development evaluates (exhausting it would need a pattern with on the
order of a million AST nodes or quantifier repetitions). -/
def compileFuel : Nat := 1000000

/-- Source: `constexpr prefix_size = 3 + 2 * sizeof(Offset)` (the name
avoids a reserved spelling). -/
def preambleSize : Nat := 3 + 2 * offsetSize

/-- Source: `write_search_prefix`: the `.*`-equivalent prelude
`Split_PrioritizeChild (past-prelude); AnyChar;
Split_PrioritizeParent (back to the AnyChar)`. -/
def writeSearchPreamble (p : CompiledRegex) : CompiledRegex :=
  let p := pushByte p opSplit_PrioritizeChild
  let (p, o1) := alloc_offset p
  let p := set_offset p o1 preambleSize
  let p := pushByte p opAnyChar
  let p := pushByte p opSplit_PrioritizeParent
  let (p, o2) := alloc_offset p
  set_offset p o2 (1 + offsetSize)

/-- Source: `RegexCompiler::compile(const ParsedRegex&)`. -/
def compile (parsed : ParsedRegex) : CompiledRegex :=
  let res : CompiledRegex := { bytecode := [], matchers := [], save_count := 0 }
  let res := writeSearchPreamble res
  let (res, _) := compile_node compileFuel res parsed.ast
  let res := pushByte res opMatch
  { res with matchers := parsed.matchers, save_count := parsed.capture_count * 2 }

/-- Source: `RegexCompiler::compile(StringView)`: parse then compile. -/
def regexCompile (s : String) : Except String CompiledRegex :=
  match regexParse s with
  | .error e => .error e
  | .ok parsed => .ok (compile parsed)

end Kakoune

namespace Kakoune

/-! ### Threaded VM (source: `template<typename Iterator> struct ThreadedRegexVM`)

The VM is instantiated on a byte range (`ThreadedRegexVM<const char*>` in
the source's tests); positions are byte offsets into the input, `m_begin`
is offset `0`, `m_end` is `input.length`.  A thread's `inst` is a byte
index into the bytecode, `none` standing for the source's `nullptr`.
The unbounded loops of the source (the `while (true)` of `step`, the
thread loop of one input position, the input loop) carry fuel; exhausted
fuel (`none`) models a source loop that does not return. -/

/-- Source: `ThreadedRegexVM::Thread`. -/
structure Thread where
  inst : Option Nat
  saves : List (Option Nat)
deriving DecidableEq, Repr, Inhabited

/-- Source: `ThreadedRegexVM::StepResult`, extended with `oob`: the
source's `Matcher` case dereferences `*m_pos` even when `m_pos == m_end`,
a read outside the input range, made explicit here. -/
inductive StepResult where
  | consumed | matched | failed | oob
deriving DecidableEq, Repr

/-- Outcome of executing a single instruction inside `step`'s
`while (true)` loop: either the loop continues (`more`) or `step`
returns (`done`). -/
inductive StepOut where
  | more (threads : List Thread)
  | done (r : StepResult) (threads : List Thread)
deriving DecidableEq, Repr

/-- Source: `ThreadedRegexVM::add_thread`: dedup on the instruction
pointer, then insert at `index`. -/
def add_thread (threads : List Thread) (index : Nat) (pos : Nat)
    (saves : List (Option Nat)) : List Thread :=
  if threads.any (fun t => t.inst == some pos) then threads
  else threads.take index ++ [⟨some pos, saves⟩] ++ threads.drop index

/-- Source: `ThreadedRegexVM::is_line_start`. -/
def is_line_start (input : List Nat) (pos : Nat) : Bool :=
  pos == 0 || (utf8Read input (utf8PrevPos input pos)).1 == 10

/-- Source: `ThreadedRegexVM::is_line_end`. -/
def is_line_end (input : List Nat) (pos : Nat) : Bool :=
  pos == input.length || (utf8Read input pos).1 == 10

/-- Source: `ThreadedRegexVM::is_word_boundary`. -/
def is_word_boundary (input : List Nat) (pos : Nat) : Bool :=
  pos == 0 || pos == input.length ||
  (is_word (utf8Read input (utf8PrevPos input pos)).1 != is_word (utf8Read input pos).1)

/-- One iteration of the `while (true)` loop of
`ThreadedRegexVM::step(thread_index)`: fetch the opcode at thread `i`'s
`inst`, advance past operands, act.  `cp` is `0` at the end of input
(`m_pos == m_end ? 0 : *m_pos`).  Split instructions mutate the thread
list exactly as the source does (insertion at `i+1`, then update of
thread `i`).  `done .oob` is the `Matcher`-at-end-of-input dereference. -/
def stepOnce (prog : CompiledRegex) (input : List Nat) (pos : Nat)
    (threads : List Thread) (i : Nat) : StepOut :=
  let t := threads.getD i default
  match t.inst with
  | none => .done .failed threads   -- not reachable from exec: step is called on live threads
  | some inst =>
    let cp : Codepoint := if pos = input.length then 0 else (utf8Read input pos).1
    let op := prog.bytecode.getD inst 0
    let inst1 := inst + 1
    let threads := threads.set i { t with inst := some inst1 }
    if op = opLiteral then
      let r := utf8Read prog.bytecode inst1
      let threads := threads.set i { t with inst := some r.2 }
      .done (if r.1 = cp then .consumed else .failed) threads
    else if op = opAnyChar then
      .done .consumed threads
    else if op = opJump then
      let target := readOffset prog.bytecode inst1
      if threads.any (fun u => u.inst == some target) then
        .done .failed threads
      else
        .more (threads.set i { t with inst := some target })
    else if op = opSplit_PrioritizeParent then
      let target := readOffset prog.bytecode inst1
      let threads := add_thread threads (i + 1) target t.saves
      .more (threads.set i { t with inst := some (inst1 + offsetSize) })
    else if op = opSplit_PrioritizeChild then
      let threads := add_thread threads (i + 1) (inst1 + offsetSize) t.saves
      let target := readOffset prog.bytecode inst1
      .more (threads.set i { t with inst := some target })
    else if op = opSave then
      let idx := prog.bytecode.getD inst1 0
      .more (threads.set i ⟨some (inst1 + 1), t.saves.set idx (some pos)⟩)
    else if op = opMatcher then
      let matcher_id := prog.bytecode.getD inst1 0
      let threads := threads.set i { t with inst := some (inst1 + 1) }
      if pos = input.length then
        .done .oob threads   -- the source reads *m_pos here, past the end
      else
        .done (if runMatcher (prog.matchers.getD matcher_id (.escape "" [])) cp
               then .consumed else .failed) threads
    else if op = opLineStart then
      if is_line_start input pos then .more threads else .done .failed threads
    else if op = opLineEnd then
      if is_line_end input pos then .more threads else .done .failed threads
    else if op = opWordBoundary then
      if is_word_boundary input pos then .more threads else .done .failed threads
    else if op = opNotWordBoundary then
      if is_word_boundary input pos then .done .failed threads else .more threads
    else if op = opSubjectBegin then
      if pos = 0 then .more threads else .done .failed threads
    else if op = opSubjectEnd then
      if pos = input.length then .more threads else .done .failed threads
    else if op = opMatch then
      .done .matched (threads.set i { t with inst := none })
    else
      .done .failed threads   -- invalid opcode: not produced by the compiler

/-- Source: `ThreadedRegexVM::step`: iterate `stepOnce` until the thread
consumes, matches or fails; `none` = the source's loop does not return
within `fuel` instructions. -/
def vmStep (prog : CompiledRegex) (input : List Nat) (pos : Nat) :
    Nat → List Thread → Nat → Option (StepResult × List Thread)
  | 0, _, _ => none
  | fuel + 1, threads, i =>
    match stepOnce prog input pos threads i with
    | .done r threads => some (r, threads)
    | .more threads => vmStep prog input pos fuel threads i

/-- Result of one whole input position of `exec`'s thread loop. -/
inductive InnerOut where
  | ret (found : Bool) (captures : List (Option Nat))
  | oob
  | cont (threads : List Thread) (found : Bool) (captures : List (Option Nat))
deriving DecidableEq, Repr

/-- The `for (int i = 0; i < m_threads.size(); ++i)` loop inside the
input loop of `ThreadedRegexVM::exec`: step each thread (the list may
grow while it runs), handling `Matched` per mode and marking `Failed`
threads dead. -/
def vmInner (prog : CompiledRegex) (input : List Nat)
    (matchMode longest : Bool) (pos : Nat) :
    Nat → Nat → List Thread → Bool → List (Option Nat) → Option InnerOut
  | 0, _, _, _, _ => none
  | fuel + 1, i, threads, found, captures =>
    if i < threads.length then
      match vmStep prog input pos fuel threads i with
      | none => none
      | some (res, threads) =>
        if res = .matched then
          if matchMode then
            vmInner prog input matchMode longest pos fuel (i + 1) threads found captures
          else
            let captures := (threads.getD i default).saves
            let threads := threads.take i   -- m_threads.resize(i)
            if !longest then some (.ret true captures)
            else vmInner prog input matchMode longest pos fuel (i + 1) threads true captures
        else if res = .failed then
          let t := threads.getD i default
          vmInner prog input matchMode longest pos fuel (i + 1)
            (threads.set i { t with inst := none }) found captures
        else if res = .oob then some .oob
        else vmInner prog input matchMode longest pos fuel (i + 1) threads found captures
    else some (.cont threads found captures)

/-- Result of `exec`: the returned boolean together with `m_captures`,
or `oob` when a step read past the end of the input. -/
inductive ExecResult where
  | ok (found : Bool) (captures : List (Option Nat))
  | oob
deriving DecidableEq, Repr

/-- The post-input loop of `exec` (source lines "Step remaining threads
to see if they match without consuming anything else"). -/
def vmPost (prog : CompiledRegex) (input : List Nat) (longest : Bool) :
    Nat → Nat → List Thread → Bool → List (Option Nat) → Option ExecResult
  | 0, _, _, _, _ => none
  | fuel + 1, i, threads, found, captures =>
    if i < threads.length then
      match vmStep prog input input.length fuel threads i with
      | none => none
      | some (res, threads) =>
        if res = .matched then
          let captures := (threads.getD i default).saves
          let threads := threads.take i   -- m_threads.resize(i)
          if !longest then some (.ok true captures)
          else vmPost prog input longest fuel (i + 1) threads true captures
        else if res = .oob then some .oob
        else vmPost prog input longest fuel (i + 1) threads found captures
    else some (.ok found captures)

/-- The input loop of `ThreadedRegexVM::exec`: one input position per
round, then dead-thread compaction, the empty-list early `return false`,
and finally the post-input loop. -/
def vmMain (prog : CompiledRegex) (input : List Nat) (matchMode longest : Bool) :
    Nat → Nat → List Thread → Bool → List (Option Nat) → Option ExecResult
  | 0, _, _, _, _ => none
  | fuel + 1, pos, threads, found, captures =>
    if pos = input.length then
      vmPost prog input longest fuel 0 threads found captures
    else
      match vmInner prog input matchMode longest pos fuel 0 threads found captures with
      | none => none
      | some .oob => some .oob
      | some (.ret b captures) => some (.ok b captures)
      | some (.cont threads found captures) =>
        let threads := threads.filter (fun t => t.inst ≠ none)
        if threads.isEmpty then some (.ok false captures)   -- `return false;`
        else vmMain prog input matchMode longest fuel (utf8Read input pos).2 threads found captures

/-- Source: `ThreadedRegexVM::exec(data, match, longest)`: seed one
thread (at the search prelude, or past it when `matchMode`) with
all-null saves, then run the input loop.  `none` = the source's `exec`
does not return within `fuel`. -/
def exec (prog : CompiledRegex) (data : String) (matchMode longest : Bool)
    (fuel : Nat) : Option ExecResult :=
  let input := strBytes data
  let threads := add_thread [] 0 (if matchMode then preambleSize else 0)
    (List.replicate prog.save_count none)
  vmMain prog input matchMode longest fuel 0 threads false []

/-- Partial run of the post-input loop: the state of the thread list
after `k` iterations of `vmPost`'s loop (same state evolution, stopped
early), used to observe intermediate thread-list states of `exec`. -/
def vmPostTrace (prog : CompiledRegex) (input : List Nat) (stepFuel : Nat) :
    Nat → Nat → List Thread → List Thread
  | 0, _, threads => threads
  | k + 1, i, threads =>
    if i < threads.length then
      match vmStep prog input input.length stepFuel threads i with
      | none => threads
      | some (res, threads) =>
        if res = .matched then vmPostTrace prog input stepFuel k (i + 1) (threads.take i)
        else vmPostTrace prog input stepFuel k (i + 1) threads
    else threads

end Kakoune

open Kakoune

/-! ### Concrete compiled programs

Each literal below is the `CompiledRegex` that `regexCompile` produces for
the named pattern; the defining theorems restate this by `rfl`. -/

/-- `regexCompile "a"`. -/
def progA : CompiledRegex :=
  { bytecode := [6,11,0,0,0,2,5,5,0,0,0,7,0,1,97,7,1,0], matchers := [], save_count := 2 }

/-- `regexCompile "(^)*"`. -/
def progLoop : CompiledRegex :=
  { bytecode := [6,11,0,0,0,2,5,5,0,0,0,7,0,5,28,0,0,0,7,2,8,7,3,6,18,0,0,0,7,1,0],
    matchers := [], save_count := 4 }

/-- `regexCompile "\d"`. -/
def progDigitEsc : CompiledRegex :=
  { bytecode := [6,11,0,0,0,2,5,5,0,0,0,7,0,3,0,7,1,0],
    matchers := [.escape "digit" []], save_count := 2 }

/-- `regexCompile "a*b"`. -/
def progStarAB : CompiledRegex :=
  { bytecode := [6,11,0,0,0,2,5,5,0,0,0,7,0,5,25,0,0,0,1,97,6,18,0,0,0,1,98,7,1,0],
    matchers := [], save_count := 2 }

/-- `regexCompile "(.*)+"`. -/
def progDotStarPlus : CompiledRegex :=
  { bytecode := [6,11,0,0,0,2,5,5,0,0,0,7,0,7,2,5,26,0,0,0,2,6,20,0,0,0,7,3,6,13,0,0,0,7,1,0],
    matchers := [], save_count := 4 }

/-- A thread-list state that the VM running `progLoop` on empty input
revisits every four inner steps (the epsilon cycle of `(^)*`). -/
def loopThreads : List Thread :=
  [⟨some 18, [some 0, none, some 0, some 0]⟩, ⟨some 28, [some 0, none, none, none]⟩]

/-- The seed thread list of an anchored `exec` of `progLoop`. -/
def seedLoop : List Thread := [⟨some 11, [none, none, none, none]⟩]

/-- `bytePre a b`: `a` is a byte-for-byte prefix of `b`.  The compiler
only appends bytes and overwrites offset cells it allocated itself, so
the preamble written first stays in place; the lemmas below prove this. -/
def bytePre (a b : List Nat) : Prop := b.take a.length = a

/-! ### Prefix-preservation lemmas for the compiler -/

theorem take_set_of_le' {α : Type} (l : List α) (n m : Nat) (a : α) (h : m ≤ n) :
    (l.set n a).take m = l.take m := by
  apply List.ext_getElem?
  intro i
  rw [List.getElem?_take, List.getElem?_take]
  by_cases hi : i < m
  · simp only [if_pos hi]
    exact List.getElem?_set_ne (by omega)
  · simp [if_neg hi]

theorem bytePre_refl (a : List Nat) : bytePre a a := List.take_length a

theorem bytePre_len {a b : List Nat} (h : bytePre a b) : a.length ≤ b.length := by
  have h2 := congrArg List.length h
  rw [List.length_take] at h2
  simp [Nat.min_def] at h2
  omega

theorem bytePre_trans {a b c : List Nat} (hab : bytePre a b) (hbc : bytePre b c) :
    bytePre a c := by
  have hl := bytePre_len hab
  unfold bytePre at *
  calc c.take a.length = (c.take b.length).take a.length := by
        rw [List.take_take, Nat.min_eq_left hl]
    _ = b.take a.length := by rw [hbc]
    _ = a := hab

theorem bytePre_append (a t : List Nat) : bytePre a (a ++ t) := List.take_left a t

theorem bytePre_append_right {a b : List Nat} (h : bytePre a b) (t : List Nat) :
    bytePre a (b ++ t) := bytePre_trans h (bytePre_append b t)

theorem bytePre_set {a b : List Nat} (h : bytePre a b) {pos : Nat}
    (hp : a.length ≤ pos) (v : Nat) : bytePre a (b.set pos v) := by
  unfold bytePre
  rw [take_set_of_le' b pos a.length v hp]
  exact h

theorem bytePre_set_offset {p q : CompiledRegex} (h : bytePre p.bytecode q.bytecode)
    {pos : Nat} (hp : p.bytecode.length ≤ pos) (v : Nat) :
    bytePre p.bytecode (set_offset q pos v).bytecode := by
  unfold set_offset
  exact bytePre_set (bytePre_set (bytePre_set (bytePre_set h hp _) (by omega) _) (by omega) _)
    (by omega) _

theorem bytePre_pushByte {p q : CompiledRegex} (h : bytePre p.bytecode q.bytecode) (b : Nat) :
    bytePre p.bytecode (pushByte q b).bytecode := bytePre_append_right h _

theorem bytePre_alloc {p q : CompiledRegex} (h : bytePre p.bytecode q.bytecode) :
    bytePre p.bytecode (alloc_offset q).1.bytecode := bytePre_append_right h _

theorem bytePre_pushcp {p q : CompiledRegex} (h : bytePre p.bytecode q.bytecode) (cp : Nat) :
    bytePre p.bytecode (push_codepoint q cp).bytecode := bytePre_append_right h _

theorem bytePre_foldl_set {p : CompiledRegex} (l : List Nat) (q : CompiledRegex)
    (hq : bytePre p.bytecode q.bytecode) (hl : ∀ o ∈ l, p.bytecode.length ≤ o) :
    bytePre p.bytecode (l.foldl (fun r off => set_offset r off r.bytecode.length) q).bytecode := by
  induction l generalizing q with
  | nil => exact hq
  | cons o rest ih =>
    simp only [List.foldl_cons]
    exact ih _ (bytePre_set_offset hq (hl o (by simp)) _) (fun o' ho' => hl o' (by simp [ho']))

theorem alloc_snd (q : CompiledRegex) : (alloc_offset q).2 = q.bytecode.length := rfl

theorem pushByte_len (q : CompiledRegex) (b : Nat) :
    (pushByte q b).bytecode.length = q.bytecode.length + 1 := by
  simp [pushByte]

/-- Every compiler entry point only extends the bytecode it is given
(prefix preservation), and `compile_opt_copies` returns offsets that are
either inherited or point past the original bytecode. -/
theorem compile_preserves (fuel : Nat) :
    (∀ p node, bytePre p.bytecode (compile_node fuel p node).1.bytecode) ∧
    (∀ p node k ends, bytePre p.bytecode (compile_opt_copies fuel p node k ends).1.bytecode ∧
       ∀ o ∈ (compile_opt_copies fuel p node k ends).2, o ∈ ends ∨ p.bytecode.length ≤ o) ∧
    (∀ p node, bytePre p.bytecode (compile_node_inner fuel p node).1.bytecode) ∧
    (∀ p l, bytePre p.bytecode (compile_children fuel p l).bytecode) ∧
    (∀ p node last k, bytePre p.bytecode (compile_min_copies fuel p node last k).1.bytecode) := by
  induction fuel with
  | zero =>
    refine ⟨?_, ?_, ?_, ?_, ?_⟩
    · intro p node; exact bytePre_refl _
    · intro p node k ends; exact ⟨bytePre_refl _, fun o ho => Or.inl ho⟩
    · intro p node; exact bytePre_refl _
    · intro p l; exact bytePre_refl _
    · intro p node last k; exact bytePre_refl _
  | succ fuel ih =>
    obtain ⟨ih1, ih2, ih3, ih4, ih5⟩ := ih
    have hinner : ∀ p node, bytePre p.bytecode (compile_node_inner (fuel + 1) p node).1.bytecode := by
      intro p node
      obtain ⟨op, value, quant, children⟩ := node
      simp only [compile_node_inner]
      generalize hP1 : (if (decide (op = AstOp.Alternation) || decide (op = AstOp.Sequence)) = true
          then value else (-1 : Int)) = capture
      generalize hP2 : (if capture ≠ -1
          then pushByte (pushByte p opSave) (2 * capture).toNat else p) = P1
      have hp1 : bytePre p.bytecode P1.bytecode := by
        rw [← hP2]
        split
        · exact bytePre_pushByte (bytePre_pushByte (bytePre_refl _) _) _
        · exact bytePre_refl _
      cases op with
      | Literal =>
        have hX : bytePre p.bytecode (push_codepoint (pushByte P1 opLiteral) value.toNat).bytecode :=
          bytePre_pushcp (bytePre_pushByte hp1 _) _
        split
        · exact bytePre_pushByte (bytePre_pushByte hX _) _
        · exact hX
      | AnyChar =>
        have hX : bytePre p.bytecode (pushByte P1 opAnyChar).bytecode := bytePre_pushByte hp1 _
        split
        · exact bytePre_pushByte (bytePre_pushByte hX _) _
        · exact hX
      | Matcher =>
        have hX : bytePre p.bytecode
            (compile_children fuel (pushByte (pushByte P1 opMatcher) value.toNat) children).bytecode :=
          bytePre_trans (bytePre_pushByte (bytePre_pushByte hp1 _) _) (ih4 _ children)
        split
        · exact bytePre_pushByte (bytePre_pushByte hX _) _
        · exact hX
      | Sequence =>
        have hX : bytePre p.bytecode (compile_children fuel P1 children).bytecode :=
          bytePre_trans hp1 (ih4 _ children)
        split
        · exact bytePre_pushByte (bytePre_pushByte hX _) _
        · exact hX
      | Alternation =>
        cases children with
        | nil =>
          split
          · exact bytePre_pushByte (bytePre_pushByte hp1 _) _
          · exact hp1
        | cons c0 cs =>
          cases cs with
          | nil =>
            split
            · exact bytePre_pushByte (bytePre_pushByte hp1 _) _
            · exact hp1
          | cons c1 rest =>
            have h2 : bytePre p.bytecode
                (compile_node fuel (alloc_offset (pushByte P1 opSplit_PrioritizeParent)).1 c0).1.bytecode :=
              bytePre_trans (bytePre_alloc (bytePre_pushByte hp1 _)) (ih1 _ c0)
            have h4 : bytePre p.bytecode
                (compile_node fuel (alloc_offset (pushByte
                  (compile_node fuel (alloc_offset (pushByte P1 opSplit_PrioritizeParent)).1 c0).1
                  opJump)).1 c1).1.bytecode :=
              bytePre_trans (bytePre_alloc (bytePre_pushByte h2 _)) (ih1 _ c1)
            have hoff1 : p.bytecode.length ≤
                (alloc_offset (pushByte P1 opSplit_PrioritizeParent)).2 := by
              rw [alloc_snd, pushByte_len]
              have := bytePre_len hp1
              omega
            have hoff2 : p.bytecode.length ≤
                (alloc_offset (pushByte
                  (compile_node fuel (alloc_offset (pushByte P1 opSplit_PrioritizeParent)).1 c0).1
                  opJump)).2 := by
              rw [alloc_snd, pushByte_len]
              have := bytePre_len h2
              omega
            have hX : bytePre p.bytecode
                (List.foldl (fun r off => set_offset r off r.bytecode.length)
                  (set_offset
                    (compile_node fuel (alloc_offset (pushByte
                      (compile_node fuel (alloc_offset (pushByte P1 opSplit_PrioritizeParent)).1 c0).1
                      opJump)).1 c1).1
                    (alloc_offset (pushByte P1 opSplit_PrioritizeParent)).2
                    (compile_node fuel (alloc_offset (pushByte
                      (compile_node fuel (alloc_offset (pushByte P1 opSplit_PrioritizeParent)).1 c0).1
                      opJump)).1 c1).2)
                  [(alloc_offset (pushByte
                    (compile_node fuel (alloc_offset (pushByte P1 opSplit_PrioritizeParent)).1 c0).1
                    opJump)).2]).bytecode := by
              apply bytePre_foldl_set
              · exact bytePre_set_offset h4 hoff1 _
              · intro o ho
                simp only [List.mem_singleton] at ho
                subst ho
                exact hoff2
            split
            · exact bytePre_pushByte (bytePre_pushByte hX _) _
            · exact hX
      | LineStart =>
        have hX : bytePre p.bytecode (pushByte P1 opLineStart).bytecode := bytePre_pushByte hp1 _
        split
        · exact bytePre_pushByte (bytePre_pushByte hX _) _
        · exact hX
      | LineEnd =>
        have hX : bytePre p.bytecode (pushByte P1 opLineEnd).bytecode := bytePre_pushByte hp1 _
        split
        · exact bytePre_pushByte (bytePre_pushByte hX _) _
        · exact hX
      | WordBoundary =>
        have hX : bytePre p.bytecode (pushByte P1 opWordBoundary).bytecode := bytePre_pushByte hp1 _
        split
        · exact bytePre_pushByte (bytePre_pushByte hX _) _
        · exact hX
      | NotWordBoundary =>
        have hX : bytePre p.bytecode (pushByte P1 opNotWordBoundary).bytecode := bytePre_pushByte hp1 _
        split
        · exact bytePre_pushByte (bytePre_pushByte hX _) _
        · exact hX
      | SubjectBegin =>
        have hX : bytePre p.bytecode (pushByte P1 opSubjectBegin).bytecode := bytePre_pushByte hp1 _
        split
        · exact bytePre_pushByte (bytePre_pushByte hX _) _
        · exact hX
      | SubjectEnd =>
        have hX : bytePre p.bytecode (pushByte P1 opSubjectEnd).bytecode := bytePre_pushByte hp1 _
        split
        · exact bytePre_pushByte (bytePre_pushByte hX _) _
        · exact hX
    refine ⟨?_, ?_, hinner, ?_, ?_⟩
    · intro p node
      simp only [compile_node]
      split
      · split
        · dsimp only
          have hP1 : bytePre p.bytecode
              (alloc_offset (pushByte p opSplit_PrioritizeParent)).1.bytecode :=
            bytePre_alloc (bytePre_pushByte (bytePre_refl _) _)
          have hP2 := bytePre_trans hP1 (ih3 _ node)
          have hP3 := bytePre_trans hP2 (ih5
            (compile_node_inner fuel (alloc_offset (pushByte p opSplit_PrioritizeParent)).1 node).1 node
            (compile_node_inner fuel (alloc_offset (pushByte p opSplit_PrioritizeParent)).1 node).2
            (node.quant.min - 1).toNat)
          apply bytePre_foldl_set
          · refine bytePre_set_offset (bytePre_alloc (bytePre_pushByte hP3 _)) ?_ _
            rw [alloc_snd, pushByte_len]
            exact Nat.le_succ_of_le (bytePre_len hP3)
          · intro o ho
            simp only [List.mem_singleton] at ho
            subst ho
            rw [alloc_snd, pushByte_len]
            exact Nat.le_succ_of_le (Nat.le_refl _)
        · dsimp only
          have hP2 := ih3 p node
          have hP3 := bytePre_trans hP2 (ih5 (compile_node_inner fuel p node).1 node
            (compile_node_inner fuel p node).2 (node.quant.min - 1).toNat)
          apply bytePre_foldl_set
          · refine bytePre_set_offset (bytePre_alloc (bytePre_pushByte hP3 _)) ?_ _
            rw [alloc_snd, pushByte_len]
            exact Nat.le_succ_of_le (bytePre_len hP3)
          · intro o ho
            simp at ho
      · split
        · dsimp only
          have hP1 : bytePre p.bytecode
              (alloc_offset (pushByte p opSplit_PrioritizeParent)).1.bytecode :=
            bytePre_alloc (bytePre_pushByte (bytePre_refl _) _)
          have hP2 := bytePre_trans hP1 (ih3 _ node)
          have hP3 := bytePre_trans hP2 (ih5
            (compile_node_inner fuel (alloc_offset (pushByte p opSplit_PrioritizeParent)).1 node).1 node
            (compile_node_inner fuel (alloc_offset (pushByte p opSplit_PrioritizeParent)).1 node).2
            (node.quant.min - 1).toNat)
          obtain ⟨ho1, ho2⟩ := ih2 (compile_min_copies fuel
              (compile_node_inner fuel (alloc_offset (pushByte p opSplit_PrioritizeParent)).1 node).1
              node
              (compile_node_inner fuel (alloc_offset (pushByte p opSplit_PrioritizeParent)).1 node).2
              (node.quant.min - 1).toNat).1 node
            (node.quant.max - max 1 node.quant.min).toNat
            [(alloc_offset (pushByte p opSplit_PrioritizeParent)).2]
          apply bytePre_foldl_set
          · exact bytePre_trans hP3 ho1
          · intro o ho
            rcases ho2 o ho with h | h
            · simp only [List.mem_singleton] at h
              subst h
              rw [alloc_snd, pushByte_len]
              exact Nat.le_succ_of_le (Nat.le_refl _)
            · exact Nat.le_trans (bytePre_len hP3) h
        · dsimp only
          have hP2 := ih3 p node
          have hP3 := bytePre_trans hP2 (ih5 (compile_node_inner fuel p node).1 node
            (compile_node_inner fuel p node).2 (node.quant.min - 1).toNat)
          obtain ⟨ho1, ho2⟩ := ih2 (compile_min_copies fuel
              (compile_node_inner fuel p node).1 node
              (compile_node_inner fuel p node).2
              (node.quant.min - 1).toNat).1 node
            (node.quant.max - max 1 node.quant.min).toNat ([] : List Nat)
          apply bytePre_foldl_set
          · exact bytePre_trans hP3 ho1
          · intro o ho
            rcases ho2 o ho with h | h
            · simp at h
            · exact Nat.le_trans (bytePre_len hP3) h
    · intro p node k ends
      simp only [compile_opt_copies]
      cases k with
      | zero => exact ⟨bytePre_refl _, fun o ho => Or.inl ho⟩
      | succ k =>
        simp only []
        have hQ : bytePre p.bytecode
            (compile_node_inner fuel (alloc_offset (pushByte p opSplit_PrioritizeParent)).1 node).1.bytecode :=
          bytePre_trans (bytePre_alloc (bytePre_pushByte (bytePre_refl _) _)) (ih3 _ node)
        obtain ⟨ho1, ho2⟩ := ih2
          (compile_node_inner fuel (alloc_offset (pushByte p opSplit_PrioritizeParent)).1 node).1
          node k (ends ++ [(alloc_offset (pushByte p opSplit_PrioritizeParent)).2])
        refine ⟨bytePre_trans hQ ho1, ?_⟩
        intro o ho
        rcases ho2 o ho with h | h
        · rcases List.mem_append.mp h with h2 | h2
          · exact Or.inl h2
          · simp only [List.mem_singleton] at h2
            subst h2
            right
            rw [alloc_snd, pushByte_len]
            omega
        · right
          have := bytePre_len hQ
          omega
    · intro p l
      simp only [compile_children]
      cases l with
      | nil => exact bytePre_refl _
      | cons c cs =>
        simp only []
        exact bytePre_trans (ih1 p c) (ih4 _ cs)
    · intro p node last k
      simp only [compile_min_copies]
      cases k with
      | zero => exact bytePre_refl _
      | succ k =>
        simp only []
        exact bytePre_trans (ih3 p node) (ih5 _ node _ k)

/-! ### Nontermination of the VM on the epsilon cycle of (^)* -/

/-- The inner loop of the VM on `progLoop` over empty input revisits
`loopThreads` every four steps. -/
theorem vmStep_loop_cycle (n : Nat) :
    vmStep progLoop [] 0 (n + 4) loopThreads 0 = vmStep progLoop [] 0 n loopThreads 0 := rfl

/-- Six inner steps take the seed thread list of `progLoop` into the cycle. -/
theorem vmStep_loop_seed (n : Nat) :
    vmStep progLoop [] 0 (n + 6) seedLoop 0 = vmStep progLoop [] 0 n loopThreads 0 := rfl

/-- No amount of fuel lets the inner loop finish from `loopThreads`:
the thread at the cycle re-enters itself. -/
theorem vmStep_loop_none : ∀ n, vmStep progLoop [] 0 n loopThreads 0 = none := by
  intro n
  induction n using Nat.strong_induction_on with
  | _ n ih =>
    match n with
    | 0 => rfl
    | 1 => rfl
    | 2 => rfl
    | 3 => rfl
    | m + 4 => rw [vmStep_loop_cycle]; exact ih m (by omega)

/-- No amount of fuel lets the inner loop finish from the seed list. -/
theorem vmStep_seed_none : ∀ n, vmStep progLoop [] 0 n seedLoop 0 = none := by
  intro n
  match n with
  | 0 => rfl
  | 1 => rfl
  | 2 => rfl
  | 3 => rfl
  | 4 => rfl
  | 5 => rfl
  | m + 6 => rw [vmStep_loop_seed]; exact vmStep_loop_none m

/-- The post-input loop of `exec` never returns on `progLoop` with the
seed list, whatever the flags and accumulated state. -/
theorem vmPost_loop_none (f : Nat) (fnd : Bool) (caps : List (Option Nat)) :
    vmPost progLoop [] false f 0 seedLoop fnd caps = none := by
  cases f with
  | zero => rfl
  | succ g =>
    simp only [vmPost, List.length_nil, vmStep_seed_none g,
      show (0:Nat) < seedLoop.length from by decide, if_true]

/-- Anchored `exec` of `progLoop` (the compilation of `(^)*`) on the
empty input runs forever: for every fuel bound the fueled model runs out
of fuel instead of returning. -/
theorem exec_loop_none : ∀ fuel, exec progLoop "" true false fuel = none := by
  intro fuel
  cases fuel with
  | zero => rfl
  | succ g =>
    show vmMain progLoop [] true false (g+1) 0 seedLoop false [] = none
    simp [vmMain, vmPost_loop_none]

/-! ### The claims -/

/-- Claim C1 (code bug): the spec requires `exec(p, s, longest=true)` to
return a successful result whenever some match exists.  For pattern `a`
on input `aa` in search mode, non-longest `exec` finds the match, but
`longest=true` returns found = `false` for the very same input: the
source's `return false;` on an empty compacted thread list (line 759 of
regex_impl.cc) discards the already-recorded match when the matched
thread was thread 0 (so that `m_threads.resize(i)` left the list empty). -/
theorem claim_C1_longest_loses_match :
    regexCompile "a" = .ok progA ∧
    exec progA "aa" false false 400 = some (.ok true [some 0, some 1]) ∧
    exec progA "aa" false true 400 = some (.ok false [some 0, some 1]) :=
  ⟨rfl, rfl, rfl⟩

/-- Claim C2 (code bug): the spec says the VM is total and never reads
outside the input.  Both halves fail: anchored `exec` of `(^)*` on the
empty input loops forever (for every fuel the model returns `none`, via
a four-step cycle of the thread list), and `\d` on the empty input in
anchored mode steps its Matcher opcode at the end-of-input position,
where the source dereferences `*m_pos` at `m_end` (modelled `.oob`). -/
theorem claim_C2_vm_totality_fails :
    regexCompile "(^)*" = .ok progLoop ∧
    (∀ fuel, exec progLoop "" true false fuel = none) ∧
    regexCompile "\\d" = .ok progDigitEsc ∧
    exec progDigitEsc "" true false 400 = some .oob :=
  ⟨rfl, exec_loop_none, rfl, rfl⟩

/-- Claim C3, counterexample to the frozen wording: `a)b` contains an
unmatched `)` yet compiles successfully (to the same program as `a`):
the parser stops at the unmatched `)` without consuming it and never
checks that the input is exhausted. -/
theorem claim_C3_counterexample : regexCompile "a)b" = .ok progA := rfl

/-- Claim C3 (corrected): an unmatched `)` is only a parse failure when
it leaves an empty alternative (as in `)a`); otherwise parsing stops
quietly before it, so `a)b` compiles exactly as `a` does, silently
ignoring the tail.  A missing `)` (as in `(a`) is a parse failure. -/
theorem claim_C3_unmatched_paren :
    regexCompile "a)b" = regexCompile "a" ∧
    regexCompile ")a" = .error "empty alternative" ∧
    regexCompile "(a" = .error "unclosed parenthesis" := ⟨rfl, rfl, rfl⟩

/-- Claim C4 (code bug): `atom_escape` never consults its computed
`neg` flag and the escape table registers 's' twice instead of 's' and
'S'.  Hence `\D` compiles to exactly the digit matcher of `\d` (and
accepts the digit `5`), `\W` produces the positive alnum matcher
(accepting `a` = 97), and `\S` is rejected as an unknown escape. -/
theorem claim_C4_negated_escapes :
    regexCompile "\\D" = regexCompile "\\d" ∧
    regexCompile "\\D" = .ok progDigitEsc ∧
    exec progDigitEsc "5" true false 400 = some (.ok true [some 0, some 1]) ∧
    (regexParse "\\W").toOption.map (fun pr => pr.matchers) = some [.escape "alnum" [95]] ∧
    runMatcher (.escape "alnum" [95]) 97 = true ∧
    regexParse "\\S" = .error "unknown atom escape" :=
  ⟨rfl, rfl, rfl, rfl, rfl, rfl⟩

/-- Claim C5 (code bug): anchored `exec` behaves as claimed on the
concrete cases (`a*b` matches `ab` and `b` entirely, refuses `abc`
whose match ends mid-input), but the claimed equivalence is false in
general: `(^)*` admits a match that both begins and ends at the
boundaries of the empty input, yet anchored `exec` never returns on it
(every fuel bound is exhausted inside the epsilon cycle). -/
theorem claim_C5_anchored_semantics :
    regexCompile "a*b" = .ok progStarAB ∧
    exec progStarAB "ab" true false 400 = some (.ok true [some 0, some 2]) ∧
    exec progStarAB "abc" true false 400 = some (.ok false []) ∧
    exec progStarAB "b" true false 400 = some (.ok true [some 0, some 1]) ∧
    regexCompile "(^)*" = .ok progLoop ∧
    (∀ fuel, exec progLoop "" true false fuel = none) :=
  ⟨rfl, rfl, rfl, rfl, rfl, exec_loop_none⟩

/-- Claim C6 (code bug): the live thread count is claimed to stay below
`bytecode.size()`, but `add_thread` deduplicates only against threads at
or after the current iteration index, so dead slots accumulate: running
`(.*)+` (36 bytecode bytes) on the empty input, 60 iterations into the
post-input loop the thread list already holds 63 live threads. -/
theorem claim_C6_thread_count_unbounded :
    regexCompile "(.*)+" = .ok progDotStarPlus ∧
    progDotStarPlus.bytecode.length = 36 ∧
    strBytes "" = [] ∧
    ((vmPostTrace progDotStarPlus [] 500 60 0
        (add_thread [] 0 0 (List.replicate progDotStarPlus.save_count none))).filter
          (fun t => t.inst ≠ none)).length = 63 :=
  ⟨rfl, rfl, rfl, by decide⟩

/-- Claim C8, counterexample to the frozen wording: in the program
compiled from `a` the back offset of the search prelude's
Split_PrioritizeParent is 5 (the AnyChar instruction), not 0 (the first
instruction of the program) as claimed. -/
theorem claim_C8_counterexample :
    regexCompile "a" = .ok progA ∧
    progA.bytecode.take preambleSize ≠
      [opSplit_PrioritizeChild] ++ offsetBytes preambleSize ++
      [opAnyChar, opSplit_PrioritizeParent] ++ offsetBytes 0 :=
  ⟨rfl, by decide⟩

/-- Claim C8 (corrected): every compiled program begins with the
fixed-size search prelude (3 opcode bytes + 2 offsets): a
Split_PrioritizeChild whose offset is the address just past the
prelude, AnyChar, and a Split_PrioritizeParent whose back offset is
`1 + offsetSize` = 5, the AnyChar instruction — not the program's first
instruction.  Proven for all parsed regexes via prefix preservation of
the compiler. -/
theorem claim_C8_search_preamble (parsed : ParsedRegex) :
    (compile parsed).bytecode.take preambleSize =
      [opSplit_PrioritizeChild] ++ offsetBytes preambleSize ++
      [opAnyChar, opSplit_PrioritizeParent] ++ offsetBytes (1 + offsetSize) := by
  have h0 : (writeSearchPreamble ⟨[], [], 0⟩).bytecode =
      [opSplit_PrioritizeChild] ++ offsetBytes preambleSize ++
      [opAnyChar, opSplit_PrioritizeParent] ++ offsetBytes (1 + offsetSize) := by decide
  have h1 : bytePre (writeSearchPreamble ⟨[], [], 0⟩).bytecode
      (compile_node compileFuel (writeSearchPreamble ⟨[], [], 0⟩) parsed.ast).1.bytecode :=
    (compile_preserves compileFuel).1 _ _
  have h2 : bytePre (writeSearchPreamble ⟨[], [], 0⟩).bytecode
      (pushByte (compile_node compileFuel (writeSearchPreamble ⟨[], [], 0⟩) parsed.ast).1 opMatch).bytecode :=
    bytePre_pushByte h1 _
  have h3 : (compile parsed).bytecode =
      (pushByte (compile_node compileFuel (writeSearchPreamble ⟨[], [], 0⟩) parsed.ast).1 opMatch).bytecode := rfl
  rw [h3]
  unfold bytePre at h2
  rw [h0] at h2
  have h4 : ([opSplit_PrioritizeChild] ++ offsetBytes preambleSize ++
      [opAnyChar, opSplit_PrioritizeParent] ++ offsetBytes (1 + offsetSize)).length = preambleSize := by decide
  rw [h4] at h2
  exact h2

/-- Claim C9 (confirmed): whenever a `term` parses to nothing (the next
character starts no term), the enclosing `alternative` fails with
"empty alternative"; in particular `a||b`, `(|)`, a leading `|` and a
trailing `|` are all parse errors and no program is produced. -/
theorem claim_C9_empty_alternative :
    (∀ fuel st st1, term fuel st = .ok (none, st1) →
        alternative (fuel + 2) st = .error "empty alternative") ∧
    regexParse "a||b" = .error "empty alternative" ∧
    regexParse "(|)" = .error "empty alternative" ∧
    regexParse "|a" = .error "empty alternative" ∧
    regexParse "a|" = .error "empty alternative" := by
  refine ⟨?_, rfl, rfl, rfl, rfl⟩
  intro fuel st st1 h
  show alternative (fuel + 1 + 1) st = .error "empty alternative"
  simp only [alternative, terms, h]
  rfl

/-- Claim C9, concrete instance: the general lemma applied at the state
reached inside `|b`, where the next `term` parses to nothing. -/
theorem claim_C9_empty_alternative_witness :
    alternative 7 ⟨strCps "|b", 1, []⟩ = .error "empty alternative" :=
  claim_C9_empty_alternative.1 5 ⟨strCps "|b", 1, []⟩ ⟨strCps "|b", 1, []⟩ rfl

/-- Claim C10 (confirmed): inside a character class an escape `\X` with
`X` not a class-escape letter is no parse error: `[\q]` parses to a
class whose matcher accepts exactly `\` (92) and `q` (113); in general
the class loop consumes a lone `\` before any non-table, non-dash
codepoint as the literal range 92–92 and continues with that codepoint
as a fresh class item. -/
theorem claim_C10_class_unknown_escape :
    (regexParse "[\\q]").toOption.map (fun pr => pr.matchers) =
      some [.charClass [⟨92, 92⟩, ⟨113, 113⟩] [] false] ∧
    (∀ cp : Nat, runMatcher (.charClass [⟨92, 92⟩, ⟨113, 113⟩] [] false) cp = true ↔
        (cp = 92 ∨ cp = 113)) ∧
    (∀ x rest fuel ranges ctypes cc ms,
        x ≠ 100 → x ≠ 68 → x ≠ 119 → x ≠ 87 → x ≠ 115 → x ≠ 45 →
        character_class_loop (fuel + 1) ⟨92 :: x :: rest, cc, ms⟩ ranges ctypes =
        character_class_loop fuel ⟨x :: rest, cc, ms⟩ (ranges ++ [⟨92, 92⟩]) ctypes) := by
  refine ⟨rfl, ?_, ?_⟩
  · intro cp
    simp only [runMatcher, List.any_cons, List.any_nil, Bool.or_false, Bool.or_eq_true,
      Bool.and_eq_true, decide_eq_true_eq, if_false, Bool.false_eq_true, ite_false]
    constructor
    · rintro (⟨ha, hb⟩ | ⟨ha, hb⟩)
      · exact Or.inl (Nat.le_antisymm hb ha)
      · exact Or.inr (Nat.le_antisymm hb ha)
    · rintro (rfl | rfl)
      · exact Or.inl ⟨Nat.le_refl _, Nat.le_refl _⟩
      · exact Or.inr ⟨Nat.le_refl _, Nat.le_refl _⟩
  · intro x rest fuel ranges ctypes cc ms h1 h2 h3 h4 h5 h6
    have e1 : ((100:Nat) == x) = false := by simpa using Ne.symm h1
    have e2 : ((68:Nat) == x) = false := by simpa using Ne.symm h2
    have e3 : ((119:Nat) == x) = false := by simpa using Ne.symm h3
    have e4 : ((87:Nat) == x) = false := by simpa using Ne.symm h4
    have e5 : ((115:Nat) == x) = false := by simpa using Ne.symm h5
    simp only [character_class_loop]
    simp [h6, character_class_escapes, List.find?, e1, e2, e3, e4, e5]

/-- Claim C10, concrete instance: the general class-loop step applied
at the escaped pair `\q` with empty accumulators. -/
theorem claim_C10_class_unknown_escape_witness :
    character_class_loop 3 ⟨[92, 113], 0, []⟩ [] [] =
    character_class_loop 2 ⟨[113], 0, []⟩ [⟨92, 92⟩] [] :=
  claim_C10_class_unknown_escape.2.2 113 [] 2 [] [] 0 [] (by decide) (by decide) (by decide)
    (by decide) (by decide) (by decide)
